import Mathlib

/-!
# Verification of the meterelf temporal aggregation and gap-synthesis engine

This file gives a shallow embedding of `meterelf/store/visualize_data.py` and
proves (or refutes) the frozen claims about it.

Modelling conventions:
* Python `float` is modelled by `ℚ` (exact arithmetic).
* A timezone-aware Python `datetime` is modelled by its absolute instant in
  microseconds since the Unix epoch together with its fixed utcoffset in
  seconds (`DateTime` below); `timedelta` is modelled by a microsecond count
  (`Int`).  Aware datetimes compare by instant, exactly as in Python.
* Python's calendar (`strftime`/`strptime` field access) is the proleptic
  Gregorian calendar; it is embedded by an executable day-number/civil-triple
  conversion pair (`civilFromDays` / `daysFromCivil`) proved to be mutually
  inverse below.
* Fallible Python code (the `TypeError` raised when an optional field is
  compared against a number, and the `assert` in `_get_amended_values`)
  is modelled in the `Except PyErr` monad.
-/

/-! ## Gregorian calendar arithmetic

`daysFromCivil`/`civilFromDays` convert between a day number (days since
1970-01-01) and a Gregorian `(year, month, day)` triple, using the standard
era decomposition of the proleptic Gregorian calendar: 400-year eras of
146097 days, with "shifted" years running March..February so that the leap
day is the last day of a shifted year. -/

/-- Days before shifted-year `y` within its 400-year era
(shifted years start March 1; year 0 of the era starts on March 1 of a year
divisible by 400). -/
def sdays (y : Int) : Int := 365 * y + y / 4 - y / 100

/-- Year-of-era of a day-of-era: candidate `doe / 365` clamped to 399,
adjusted down by one when the candidate year starts after `doe`. -/
def yoeOfDoe (doe : Int) : Int :=
  let c := min (doe / 365) 399
  if sdays c ≤ doe then c else c - 1

/-- First day (within a shifted year) of shifted month `mp` (0 = March .. 11 = February). -/
def monthStart (mp : Int) : Int := (153 * mp + 2) / 5

/-- Shifted month of a day-of-shifted-year. -/
def mpOf (doy : Int) : Int := (5 * doy + 2) / 153

/-- 400-year era containing a day number. -/
def eraOf (z : Int) : Int := (z + 719468) / 146097

/-- Day-of-era of a day number. -/
def doeOf (z : Int) : Int := z + 719468 - 146097 * eraOf z

/-- Day number since 1970-01-01 to Gregorian (year, month, day). -/
def civilFromDays (z : Int) : Int × Int × Int :=
  let doe := doeOf z
  let yoe := yoeOfDoe doe
  let doy := doe - sdays yoe
  let mp := mpOf doy
  let d := doy - monthStart mp + 1
  let m := if mp < 10 then mp + 3 else mp - 9
  let y := eraOf z * 400 + yoe
  (if m ≤ 2 then y + 1 else y, m, d)

/-- Gregorian (year, month, day) to day number since 1970-01-01. -/
def daysFromCivil (y0 m d : Int) : Int :=
  let y := if m ≤ 2 then y0 - 1 else y0
  let era := y / 400
  let yoe := y - era * 400
  let doy := monthStart (if 2 < m then m - 3 else m + 9) + d - 1
  era * 146097 + sdays yoe + doy - 719468

example : civilFromDays 0 = (1970, 1, 1) := by decide
example : civilFromDays 17798 = (2018, 9, 24) := by decide
example : daysFromCivil 2018 9 24 = 17798 := by decide
example : civilFromDays 11016 = (2000, 2, 29) := by decide
example : daysFromCivil 2000 2 29 = 11016 := by decide
example : civilFromDays (-1) = (1969, 12, 31) := by decide
example : daysFromCivil 1969 12 31 = -1 := by decide
example : civilFromDays 18321 = (2020, 2, 29) := by decide
example : civilFromDays 18322 = (2020, 3, 1) := by decide
example : civilFromDays 17955 = (2019, 2, 28) := by decide
example : civilFromDays 17956 = (2019, 3, 1) := by decide

theorem yoeOfDoe_facts (doe : Int) (h0 : 0 ≤ doe) (h1 : doe ≤ 146096) :
    0 ≤ yoeOfDoe doe ∧ yoeOfDoe doe ≤ 399 ∧ sdays (yoeOfDoe doe) ≤ doe ∧
    doe - sdays (yoeOfDoe doe) ≤ 365 ∧
    (yoeOfDoe doe ≤ 398 → doe < sdays (yoeOfDoe doe + 1)) := by
  simp only [yoeOfDoe, sdays]
  split_ifs <;> (try simp only [Int.sub_add_cancel]) <;> omega

theorem yoeOfDoe_inv (y k : Int) (hy0 : 0 ≤ y) (hy1 : y ≤ 399) (hk0 : 0 ≤ k)
    (hk1 : k ≤ 337) : yoeOfDoe (sdays y + k) = y := by
  simp only [yoeOfDoe, sdays]
  split_ifs <;> omega

theorem mpOf_facts (doy : Int) (h0 : 0 ≤ doy) (h1 : doy ≤ 365) :
    0 ≤ mpOf doy ∧ mpOf doy ≤ 11 ∧ monthStart (mpOf doy) ≤ doy ∧
    doy < monthStart (mpOf doy + 1) ∧ doy - monthStart (mpOf doy) ≤ 30 := by
  simp only [mpOf, monthStart]
  omega

theorem mpOf_inv (mp : Int) (h0 : 0 ≤ mp) (h1 : mp ≤ 11) :
    mpOf (monthStart mp) = mp := by
  simp only [mpOf, monthStart]
  omega

theorem monthStart_bounds (mp : Int) (h0 : 0 ≤ mp) (h1 : mp ≤ 11) :
    0 ≤ monthStart mp ∧ monthStart mp ≤ 337 := by
  simp only [monthStart]; omega

theorem sdays_nonneg (y : Int) (h : 0 ≤ y) : 0 ≤ sdays y := by
  simp only [sdays]; omega

theorem doeOf_facts (z : Int) :
    0 ≤ doeOf z ∧ doeOf z ≤ 146096 ∧ z + 719468 = 146097 * eraOf z + doeOf z := by
  simp only [doeOf, eraOf]; omega

theorem daysFromCivil_eq (era yoe mp d : Int) (h0 : 0 ≤ yoe) (h1 : yoe ≤ 399)
    (h2 : 0 ≤ mp) (h3 : mp ≤ 11) :
    daysFromCivil (if mp < 10 then era * 400 + yoe else era * 400 + yoe + 1)
        (if mp < 10 then mp + 3 else mp - 9) d
      = era * 146097 + sdays yoe + monthStart mp + d - 1 - 719468 := by
  have hdiv : (era * 400 + yoe) / 400 = era := by omega
  by_cases hmp : mp < 10
  · simp only [daysFromCivil, if_pos hmp]
    rw [if_neg (by omega : ¬ (mp + 3 ≤ 2)), if_pos (by omega : 2 < mp + 3), hdiv]
    have e1 : era * 400 + yoe - era * 400 = yoe := by ring
    have e2 : mp + 3 - 3 = mp := by ring
    rw [e1, e2]; ring
  · simp only [daysFromCivil, if_neg hmp]
    rw [if_pos (by omega : mp - 9 ≤ 2), if_neg (by omega : ¬ (2 < mp - 9))]
    have e0 : era * 400 + yoe + 1 - 1 = era * 400 + yoe := by ring
    rw [e0, hdiv]
    have e1 : era * 400 + yoe - era * 400 = yoe := by ring
    have e2 : mp - 9 + 9 = mp := by ring
    rw [e1, e2]; ring

theorem civilFromDays_eq (z : Int) :
    civilFromDays z =
      ((if mpOf (doeOf z - sdays (yoeOfDoe (doeOf z))) < 10
          then eraOf z * 400 + yoeOfDoe (doeOf z)
          else eraOf z * 400 + yoeOfDoe (doeOf z) + 1),
       (if mpOf (doeOf z - sdays (yoeOfDoe (doeOf z))) < 10
          then mpOf (doeOf z - sdays (yoeOfDoe (doeOf z))) + 3
          else mpOf (doeOf z - sdays (yoeOfDoe (doeOf z))) - 9),
       doeOf z - sdays (yoeOfDoe (doeOf z))
         - monthStart (mpOf (doeOf z - sdays (yoeOfDoe (doeOf z)))) + 1) := by
  have hdoe := doeOf_facts z
  have hyoe := yoeOfDoe_facts (doeOf z) hdoe.1 hdoe.2.1
  have hmp := mpOf_facts (doeOf z - sdays (yoeOfDoe (doeOf z))) (by omega) (by omega)
  simp only [civilFromDays]
  by_cases h : mpOf (doeOf z - sdays (yoeOfDoe (doeOf z))) < 10
  · simp only [if_pos h]
    rw [if_neg (by omega : ¬ (mpOf (doeOf z - sdays (yoeOfDoe (doeOf z))) + 3 ≤ 2))]
  · simp only [if_neg h]
    rw [if_pos (by omega : mpOf (doeOf z - sdays (yoeOfDoe (doeOf z))) - 9 ≤ 2)]

/-- The calendar conversions are mutually inverse: converting a day number to a
civil triple and back is the identity. -/
theorem daysFromCivil_civilFromDays (z : Int) :
    daysFromCivil (civilFromDays z).1 (civilFromDays z).2.1 (civilFromDays z).2.2 = z := by
  have hdoe := doeOf_facts z
  have hyoe := yoeOfDoe_facts (doeOf z) hdoe.1 hdoe.2.1
  have hmp := mpOf_facts (doeOf z - sdays (yoeOfDoe (doeOf z))) (by omega) (by omega)
  rw [civilFromDays_eq z]
  dsimp only
  rw [daysFromCivil_eq (eraOf z) (yoeOfDoe (doeOf z))
    (mpOf (doeOf z - sdays (yoeOfDoe (doeOf z)))) _ (by omega) (by omega) (by omega) (by omega)]
  omega

theorem civilFromDays_valid (z : Int) :
    1 ≤ (civilFromDays z).2.1 ∧ (civilFromDays z).2.1 ≤ 12 ∧
    1 ≤ (civilFromDays z).2.2 ∧ (civilFromDays z).2.2 ≤ 31 := by
  have hdoe := doeOf_facts z
  have hyoe := yoeOfDoe_facts (doeOf z) hdoe.1 hdoe.2.1
  have hmp := mpOf_facts (doeOf z - sdays (yoeOfDoe (doeOf z))) (by omega) (by omega)
  rw [civilFromDays_eq z]
  dsimp only
  split_ifs <;> omega

/-- `civilFromDays` of an era decomposition `sdays yoe + monthStart mp`
(a first-of-month day-of-era) recovers the first of that month. -/
theorem civilFromDays_firstOfMonth (era yoe mp : Int) (h0 : 0 ≤ yoe) (h1 : yoe ≤ 399)
    (h2 : 0 ≤ mp) (h3 : mp ≤ 11) :
    civilFromDays (era * 146097 + sdays yoe + monthStart mp - 719468) =
      ((if mp < 10 then era * 400 + yoe else era * 400 + yoe + 1),
       (if mp < 10 then mp + 3 else mp - 9), 1) := by
  have hs := sdays_nonneg yoe h0
  have hms := monthStart_bounds mp h2 h3
  have hsy : sdays yoe + 337 ≤ 146096 := by
    have h365 : sdays yoe ≤ 365 * 399 + 99 := by simp only [sdays]; omega
    omega
  set w := era * 146097 + sdays yoe + monthStart mp - 719468 with hw
  have hera : eraOf w = era := by simp only [eraOf, hw]; omega
  have hdoe : doeOf w = sdays yoe + monthStart mp := by
    simp only [doeOf, hera, hw]; ring
  have hyoe : yoeOfDoe (doeOf w) = yoe := by
    rw [hdoe]; exact yoeOfDoe_inv yoe (monthStart mp) h0 h1 hms.1 hms.2
  have hdoy : doeOf w - sdays (yoeOfDoe (doeOf w)) = monthStart mp := by
    rw [hyoe, hdoe]; ring
  have hmp : mpOf (doeOf w - sdays (yoeOfDoe (doeOf w))) = mp := by
    rw [hdoy]; exact mpOf_inv mp h2 h3
  rw [civilFromDays_eq w, hmp, hyoe, hera]
  simp only [Prod.mk.injEq]
  exact ⟨trivial, trivial, by omega⟩

/-- A day number is strictly smaller than the first day of the month following
its month, stated in era coordinates. -/
theorem lt_firstOfNextMonth (z : Int) :
    (if mpOf (doeOf z - sdays (yoeOfDoe (doeOf z))) ≤ 10
      then z < eraOf z * 146097 + sdays (yoeOfDoe (doeOf z)) +
            monthStart (mpOf (doeOf z - sdays (yoeOfDoe (doeOf z))) + 1) - 719468
      else if yoeOfDoe (doeOf z) ≤ 398
        then z < eraOf z * 146097 + sdays (yoeOfDoe (doeOf z) + 1) + monthStart 0 - 719468
        else z < (eraOf z + 1) * 146097 + sdays 0 + monthStart 0 - 719468) := by
  have hdoe := doeOf_facts z
  have hyoe := yoeOfDoe_facts (doeOf z) hdoe.1 hdoe.2.1
  have hmp := mpOf_facts (doeOf z - sdays (yoeOfDoe (doeOf z))) (by omega) (by omega)
  have hs0 : sdays 0 = 0 := by decide
  have hm0 : monthStart 0 = 0 := by decide
  split_ifs with h1 h2
  · omega
  · omega
  · omega

/-- Variant of `daysFromCivil_eq` for shifted months before January. -/
theorem daysFromCivil_eq_lo (era yoe mp d : Int) (h0 : 0 ≤ yoe) (h1 : yoe ≤ 399)
    (h2 : 0 ≤ mp) (h3 : mp < 10) :
    daysFromCivil (era * 400 + yoe) (mp + 3) d
      = era * 146097 + sdays yoe + monthStart mp + d - 1 - 719468 := by
  have h := daysFromCivil_eq era yoe mp d h0 h1 h2 (by omega)
  rwa [if_pos h3, if_pos h3] at h

/-- Variant of `daysFromCivil_eq` for shifted months January and February. -/
theorem daysFromCivil_eq_hi (era yoe mp d : Int) (h0 : 0 ≤ yoe) (h1 : yoe ≤ 399)
    (h2 : 10 ≤ mp) (h3 : mp ≤ 11) :
    daysFromCivil (era * 400 + yoe + 1) (mp - 9) d
      = era * 146097 + sdays yoe + monthStart mp + d - 1 - 719468 := by
  have h := daysFromCivil_eq era yoe mp d h0 h1 (by omega) h3
  rwa [if_neg (by omega), if_neg (by omega)] at h

/-- First day of the month after the month containing day number `z`, computed with
the same `divmod` year/month arithmetic as `DataGatherer._step_timestamp` for the
`month` resolution. -/
def nextMonthDay (z : Int) : Int :=
  let c := civilFromDays z
  let ym := 12 * c.1 + (c.2.1 - 1) + 1
  daysFromCivil (ym / 12) (ym % 12 + 1) 1

/-- Stepping to the first of the next month strictly increases the day number. -/
theorem lt_nextMonthDay (z : Int) : z < nextMonthDay z := by
  have hdoe := doeOf_facts z
  have hyoe := yoeOfDoe_facts (doeOf z) hdoe.1 hdoe.2.1
  have hmp := mpOf_facts (doeOf z - sdays (yoeOfDoe (doeOf z))) (by omega) (by omega)
  have hlt := lt_firstOfNextMonth z
  unfold nextMonthDay
  rw [civilFromDays_eq z]
  dsimp only
  by_cases h10 : mpOf (doeOf z - sdays (yoeOfDoe (doeOf z))) < 10
  · rw [if_pos h10, if_pos h10]
    by_cases h9 : mpOf (doeOf z - sdays (yoeOfDoe (doeOf z))) < 9
    · rw [show (12 * (eraOf z * 400 + yoeOfDoe (doeOf z)) +
          (mpOf (doeOf z - sdays (yoeOfDoe (doeOf z))) + 3 - 1) + 1) / 12
          = eraOf z * 400 + yoeOfDoe (doeOf z) from by omega]
      rw [show (12 * (eraOf z * 400 + yoeOfDoe (doeOf z)) +
          (mpOf (doeOf z - sdays (yoeOfDoe (doeOf z))) + 3 - 1) + 1) % 12 + 1
          = (mpOf (doeOf z - sdays (yoeOfDoe (doeOf z))) + 1) + 3 from by omega]
      rw [daysFromCivil_eq_lo (eraOf z) (yoeOfDoe (doeOf z))
        (mpOf (doeOf z - sdays (yoeOfDoe (doeOf z))) + 1) 1
        (by omega) (by omega) (by omega) (by omega)]
      rw [if_pos (by omega)] at hlt
      omega
    · -- mp = 9, i.e. December: the next month is January of the next civil year
      rw [show (12 * (eraOf z * 400 + yoeOfDoe (doeOf z)) +
          (mpOf (doeOf z - sdays (yoeOfDoe (doeOf z))) + 3 - 1) + 1) / 12
          = eraOf z * 400 + yoeOfDoe (doeOf z) + 1 from by omega]
      rw [show (12 * (eraOf z * 400 + yoeOfDoe (doeOf z)) +
          (mpOf (doeOf z - sdays (yoeOfDoe (doeOf z))) + 3 - 1) + 1) % 12 + 1
          = 10 - 9 from by omega]
      rw [show (10 : Int) - 9 = (10 : Int) - 9 from rfl]
      rw [daysFromCivil_eq_hi (eraOf z) (yoeOfDoe (doeOf z)) 10 1
        (by omega) (by omega) (by omega) (by omega)]
      rw [if_pos (by omega)] at hlt
      have h9' : mpOf (doeOf z - sdays (yoeOfDoe (doeOf z))) = 9 := by omega
      rw [h9', show (9 : Int) + 1 = 10 from by norm_num] at hlt
      omega
  · rw [if_neg h10, if_neg h10]
    by_cases h11 : mpOf (doeOf z - sdays (yoeOfDoe (doeOf z))) < 11
    · -- mp = 10, i.e. January: the next month is February of the same civil year
      rw [show (12 * (eraOf z * 400 + yoeOfDoe (doeOf z) + 1) +
          (mpOf (doeOf z - sdays (yoeOfDoe (doeOf z))) - 9 - 1) + 1) / 12
          = eraOf z * 400 + yoeOfDoe (doeOf z) + 1 from by omega]
      rw [show (12 * (eraOf z * 400 + yoeOfDoe (doeOf z) + 1) +
          (mpOf (doeOf z - sdays (yoeOfDoe (doeOf z))) - 9 - 1) + 1) % 12 + 1
          = 11 - 9 from by omega]
      rw [daysFromCivil_eq_hi (eraOf z) (yoeOfDoe (doeOf z)) 11 1
        (by omega) (by omega) (by omega) (by omega)]
      rw [if_pos (by omega)] at hlt
      have h10' : mpOf (doeOf z - sdays (yoeOfDoe (doeOf z))) = 10 := by omega
      rw [h10', show (10 : Int) + 1 = 11 from by norm_num] at hlt
      omega
    · -- mp = 11, i.e. February: the next month is March, a new shifted year
      rw [show (12 * (eraOf z * 400 + yoeOfDoe (doeOf z) + 1) +
          (mpOf (doeOf z - sdays (yoeOfDoe (doeOf z))) - 9 - 1) + 1) / 12
          = eraOf z * 400 + yoeOfDoe (doeOf z) + 1 from by omega]
      rw [show (12 * (eraOf z * 400 + yoeOfDoe (doeOf z) + 1) +
          (mpOf (doeOf z - sdays (yoeOfDoe (doeOf z))) - 9 - 1) + 1) % 12 + 1
          = 0 + 3 from by omega]
      rw [if_neg (by omega)] at hlt
      by_cases hy : yoeOfDoe (doeOf z) ≤ 398
      · rw [show eraOf z * 400 + yoeOfDoe (doeOf z) + 1
            = eraOf z * 400 + (yoeOfDoe (doeOf z) + 1) from by ring]
        rw [daysFromCivil_eq_lo (eraOf z) (yoeOfDoe (doeOf z) + 1) 0 1
          (by omega) (by omega) (by omega) (by omega)]
        rw [if_pos hy] at hlt
        omega
      · rw [show eraOf z * 400 + yoeOfDoe (doeOf z) + 1
            = (eraOf z + 1) * 400 + 0 from by omega]
        rw [daysFromCivil_eq_lo (eraOf z + 1) 0 0 1
          (by omega) (by omega) (by omega) (by omega)]
        rw [if_neg hy] at hlt
        omega

/-! ## Timestamps, timedeltas and resolution profiles -/

/-- A timezone-aware Python `datetime`: `usecs` is the absolute instant
(microseconds since the Unix epoch, i.e. UTC), `tz` the fixed utcoffset in
seconds.  Python compares aware datetimes and subtracts them by instant;
`timedelta` arithmetic on a fixed-offset aware datetime shifts its instant
and keeps the offset. -/
structure DateTime where
  usecs : Int
  tz : Int
deriving DecidableEq

/-- Microseconds per day. -/
def usecsPerDay : Int := 86400000000

/-- Naive local clock reading of an aware datetime, in microseconds. -/
def localUsecs (dt : DateTime) : Int := dt.usecs + dt.tz * 1000000

/-- Local calendar day number (days since 1970-01-01 of the local date). -/
def localDay (dt : DateTime) : Int := localUsecs dt / usecsPerDay

/-- The local `(year, month, day)` fields, as `strftime` would print them. -/
def dateKey (dt : DateTime) : Int × Int × Int := civilFromDays (localDay dt)

/-- The eight recognised resolutions of `DataGatherer`. -/
inductive Resolution
  | second
  | threeSeconds
  | fiveSeconds
  | minute
  | hour
  | day
  | week
  | month
deriving DecidableEq

/-- `self.zeros_per_cumulating` as set by the `resolution` property setter:
1 for every resolution except `three-seconds` (2) and `second` (3). -/
def zeros_per_cumulating : Resolution → Int
  | .threeSeconds => 2
  | .second => 3
  | _ => 1

/-- `self._step` as set by the `resolution` property setter, in microseconds. -/
def stepUsecs : Resolution → Int
  | .month => 30 * 86400000000
  | .week => 7 * 86400000000
  | .day => 86400000000
  | .hour => 3600000000
  | .minute => 60000000
  | .fiveSeconds => 5000000
  | .threeSeconds => 3000000
  | .second => 1000000

/-- `self._litres_per_bar` as set by the `resolution` property setter. -/
def litres_per_bar : Resolution → ℚ
  | .month => 1000
  | .week => 100
  | .day => 10
  | .hour => 10
  | .minute => 1/2
  | .fiveSeconds => 1/10
  | .threeSeconds => 1/20
  | .second => 1/50

/-- `DataGatherer._truncate_by_day`: format the local date with
`'%Y-%m-%d %a'` and parse it back, i.e. local midnight of the local date,
with the same offset. -/
def truncate_by_day (dt : DateTime) : DateTime :=
  ⟨localDay dt * usecsPerDay - dt.tz * 1000000, dt.tz⟩

/-- `DataGatherer._truncate_by_week`: format with `'%G-W%V'` and parse back
with ISO weekday 1, i.e. local midnight of the Monday of the local date's ISO
week.  Day 0 (1970-01-01) was a Thursday, so `(dayNumber + 3) % 7` is the
Monday-based weekday index. -/
def truncate_by_week (dt : DateTime) : DateTime :=
  let dn := localDay dt
  let monday := dn - (dn + 3) % 7
  ⟨monday * usecsPerDay - dt.tz * 1000000, dt.tz⟩

/-- `DataGatherer._truncate_by_month`: format with `'%Y-%m'` and parse back
with day 1, i.e. local midnight of the first of the local date's month. -/
def truncate_by_month (dt : DateTime) : DateTime :=
  let c := civilFromDays (localDay dt)
  ⟨daysFromCivil c.1 c.2.1 1 * usecsPerDay - dt.tz * 1000000, dt.tz⟩

/-- `DataGatherer._truncate_by_step`: `EPOCH + step * ((dt - EPOCH) // step)`,
converted back to the datetime's own timezone (`astimezone` preserves the
instant).  `(dt - EPOCH).total_seconds() // step.total_seconds()` equals floor
division of the microsecond instant by the step's microseconds. -/
def truncate_by_step (r : Resolution) (dt : DateTime) : DateTime :=
  ⟨stepUsecs r * (dt.usecs / stepUsecs r), dt.tz⟩

/-- `self._truncate_timestamp` dispatch of the `resolution` property setter:
calendar truncation for `month`/`week`/`day`, step truncation otherwise. -/
def truncate_timestamp : Resolution → DateTime → DateTime
  | .month => truncate_by_month
  | .week => truncate_by_week
  | .day => truncate_by_day
  | r => truncate_by_step r

/-- `DataGatherer._step_timestamp`: for `month`, the first of the next month via
`divmod(12 * dt.year + (dt.month - 1) + 1, 12)`; otherwise
`truncate(dt) + step` (`timedelta` addition shifts the instant). -/
def step_timestamp (r : Resolution) (dt : DateTime) : DateTime :=
  match r with
  | .month =>
      let c := civilFromDays (localDay dt)
      let ym := 12 * c.1 + (c.2.1 - 1) + 1
      ⟨daysFromCivil (ym / 12) (ym % 12 + 1) 1 * usecsPerDay - dt.tz * 1000000, dt.tz⟩
  | r =>
      let t := truncate_timestamp r dt
      ⟨t.usecs + stepUsecs r, t.tz⟩

/-- The local calendar fields (year, month, day, hour, minute, second) of a
datetime; the `strftime` group formats of `DataGatherer` print (subsets of)
these fields, and two timestamps get the same group string exactly when the
truncated timestamps agree on them. -/
def localFields (dt : DateTime) : Int × Int × Int × Int × Int × Int :=
  let dn := localDay dt
  let c := civilFromDays dn
  let tod := localUsecs dt - dn * usecsPerDay
  (c.1, c.2.1, c.2.2, tod / 3600000000, tod % 3600000000 / 60000000, tod % 60000000 / 1000000)

/-- `DataGatherer.get_group`: the group key of a timestamp is its truncated
timestamp rendered with the resolution's format string; modelled by the local
calendar fields of the truncated timestamp. -/
def get_group (r : Resolution) (dt : DateTime) : Int × Int × Int × Int × Int × Int :=
  localFields (truncate_timestamp r dt)

/-- `DataGatherer._has_time_steps_between`:
`self._step_timestamp(start) < self._truncate_timestamp(end)`. -/
def has_time_steps_between (r : Resolution) (s e : DateTime) : Prop :=
  (step_timestamp r s).usecs < (truncate_timestamp r e).usecs

instance (r : Resolution) (s e : DateTime) : Decidable (has_time_steps_between r s e) := by
  unfold has_time_steps_between; infer_instance

/-- Local midnights are fixed points of `localDay`-based reconstruction. -/
theorem localDay_midnight (dn tz : Int) :
    localDay ⟨dn * usecsPerDay - tz * 1000000, tz⟩ = dn := by
  simp only [localDay, localUsecs, usecsPerDay]
  have e : dn * 86400000000 - tz * 1000000 + tz * 1000000 = dn * 86400000000 := by ring
  rw [e]
  omega

/-- Truncating to the first of the month is idempotent at the calendar level. -/
theorem civilFromDays_daysFromCivil_first (z : Int) :
    civilFromDays (daysFromCivil (civilFromDays z).1 (civilFromDays z).2.1 1) =
      ((civilFromDays z).1, (civilFromDays z).2.1, 1) := by
  have hdoe := doeOf_facts z
  have hyoe := yoeOfDoe_facts (doeOf z) hdoe.1 hdoe.2.1
  have hmp := mpOf_facts (doeOf z - sdays (yoeOfDoe (doeOf z))) (by omega) (by omega)
  rw [civilFromDays_eq z]
  dsimp only
  rw [daysFromCivil_eq (eraOf z) (yoeOfDoe (doeOf z))
    (mpOf (doeOf z - sdays (yoeOfDoe (doeOf z)))) 1 (by omega) (by omega) (by omega) (by omega)]
  rw [show eraOf z * 146097 + sdays (yoeOfDoe (doeOf z)) +
        monthStart (mpOf (doeOf z - sdays (yoeOfDoe (doeOf z)))) + 1 - 1 - 719468
      = eraOf z * 146097 + sdays (yoeOfDoe (doeOf z)) +
        monthStart (mpOf (doeOf z - sdays (yoeOfDoe (doeOf z)))) - 719468 from by ring]
  exact civilFromDays_firstOfMonth (eraOf z) (yoeOfDoe (doeOf z))
    (mpOf (doeOf z - sdays (yoeOfDoe (doeOf z)))) (by omega) (by omega) (by omega) (by omega)

theorem truncate_by_day_idem (dt : DateTime) :
    truncate_by_day (truncate_by_day dt) = truncate_by_day dt := by
  simp only [truncate_by_day, localDay_midnight]

theorem truncate_by_week_idem (dt : DateTime) :
    truncate_by_week (truncate_by_week dt) = truncate_by_week dt := by
  simp only [truncate_by_week, localDay_midnight]
  simp only [usecsPerDay, DateTime.mk.injEq]
  exact ⟨by omega, trivial⟩

theorem truncate_by_month_idem (dt : DateTime) :
    truncate_by_month (truncate_by_month dt) = truncate_by_month dt := by
  simp only [truncate_by_month, localDay_midnight]
  rw [civilFromDays_daysFromCivil_first (localDay dt)]

theorem truncate_by_step_idem (r : Resolution) (dt : DateTime) :
    truncate_by_step r (truncate_by_step r dt) = truncate_by_step r dt := by
  cases r <;>
    simp only [truncate_by_step, stepUsecs, DateTime.mk.injEq] <;>
    exact ⟨by omega, trivial⟩

/-- C8: For every recognized resolution and every timezone-aware timestamp `t`,
truncation is idempotent: `truncate(truncate(t)) == truncate(t)` (equality of
aware datetimes, instant and offset alike). -/
theorem C8_truncate_idempotent (r : Resolution) (dt : DateTime) :
    truncate_timestamp r (truncate_timestamp r dt) = truncate_timestamp r dt := by
  cases r
  case month => exact truncate_by_month_idem dt
  case week => exact truncate_by_week_idem dt
  case day => exact truncate_by_day_idem dt
  all_goals exact truncate_by_step_idem _ dt

/-- `_step_timestamp` strictly advances the instant, for every resolution. -/
theorem lt_step_timestamp (r : Resolution) (dt : DateTime) :
    dt.usecs < (step_timestamp r dt).usecs := by
  have hu : dt.usecs = localUsecs dt - dt.tz * 1000000 := by
    simp only [localUsecs]; ring
  have hld : localDay dt * 86400000000 ≤ localUsecs dt ∧
      localUsecs dt < (localDay dt + 1) * 86400000000 := by
    simp only [localDay, usecsPerDay]
    omega
  cases r
  case month =>
    have h := lt_nextMonthDay (localDay dt)
    simp only [nextMonthDay] at h
    simp only [step_timestamp, usecsPerDay]
    omega
  case day =>
    simp only [step_timestamp, truncate_timestamp, truncate_by_day, stepUsecs, usecsPerDay]
    omega
  case week =>
    simp only [step_timestamp, truncate_timestamp, truncate_by_week, stepUsecs, usecsPerDay]
    omega
  all_goals
    simp only [step_timestamp, truncate_timestamp, truncate_by_step, stepUsecs]
    omega

/-- The body of the Python generator `_get_time_steps_between`
(`t = step(start); while t < end: yield t; t = step(t)`), with an explicit
fuel parameter bounding the iteration count.  Since `_step_timestamp`
advances the instant by at least one microsecond (`lt_step_timestamp`), any
fuel at least `(end − t).toNat` microseconds is saturating
(`timeStepsGo_congr`). -/
def timeStepsGo (r : Resolution) (e : DateTime) : Nat → DateTime → List DateTime
  | 0, _ => []
  | fuel + 1, t =>
      if t.usecs < e.usecs then t :: timeStepsGo r e fuel (step_timestamp r t) else []

/-- `DataGatherer._get_time_steps_between(start, end)`: all bucket boundaries
obtained by repeated stepping from `start`, strictly before `end`. -/
def get_time_steps_between (r : Resolution) (s e : DateTime) : List DateTime :=
  timeStepsGo r e (e.usecs - s.usecs).toNat (step_timestamp r s)

/-- Any saturating fuel computes the same list: the fuel is an artifact, the
function agrees with the unbounded while loop. -/
theorem timeStepsGo_congr (r : Resolution) (e : DateTime) :
    ∀ f1 : Nat, ∀ t : DateTime, ∀ f2 : Nat,
      (e.usecs - t.usecs).toNat ≤ f1 → (e.usecs - t.usecs).toNat ≤ f2 →
      timeStepsGo r e f1 t = timeStepsGo r e f2 t := by
  intro f1
  induction f1 with
  | zero =>
      intro t f2 h1 h2
      have hne : ¬ t.usecs < e.usecs := by omega
      cases f2 with
      | zero => rfl
      | succ f2 => simp only [timeStepsGo, if_neg hne]
  | succ f1 ih =>
      intro t f2 h1 h2
      by_cases h : t.usecs < e.usecs
      · cases f2 with
        | zero => omega
        | succ f2 =>
            simp only [timeStepsGo, if_pos h]
            have hstep := lt_step_timestamp r t
            refine congrArg _ (ih (step_timestamp r t) f2 (by omega) (by omega))
      · cases f2 with
        | zero => simp only [timeStepsGo, if_neg h]
        | succ f2 => simp only [timeStepsGo, if_neg h]

/-- Every generated time step lies in `[t, e)`. -/
theorem timeStepsGo_mem (r : Resolution) (e : DateTime) :
    ∀ fuel : Nat, ∀ t x : DateTime, x ∈ timeStepsGo r e fuel t →
      t.usecs ≤ x.usecs ∧ x.usecs < e.usecs := by
  intro fuel
  induction fuel with
  | zero => intro t x hx; simp only [timeStepsGo, List.not_mem_nil] at hx
  | succ fuel ih =>
      intro t x hx
      simp only [timeStepsGo] at hx
      by_cases h : t.usecs < e.usecs
      · rw [if_pos h] at hx
        rcases List.mem_cons.mp hx with h1 | h1
        · subst h1; omega
        · have := ih (step_timestamp r t) x h1
          have hstep := lt_step_timestamp r t
          omega
      · rw [if_neg h] at hx
        simp only [List.not_mem_nil] at hx

/-- Every boundary returned by `_get_time_steps_between` lies strictly between
`start` and `end`. -/
theorem get_time_steps_between_mem (r : Resolution) (s e : DateTime) (x : DateTime)
    (hx : x ∈ get_time_steps_between r s e) : s.usecs < x.usecs ∧ x.usecs < e.usecs := by
  have h := timeStepsGo_mem r e _ _ _ hx
  have hstep := lt_step_timestamp r s
  omega

/-! ## Data model -/

/-- The part of `FilenameData` the engine reads (`event_number` may be absent). -/
structure FilenameData where
  event_number : Option Int
deriving DecidableEq

/-- `InterpretedValue` (from `process_data`), as consumed by the engine:
timestamp `t`, counter value `fv`, optional delta `dfv`, optional elapsed
time `dt` (microseconds), upstream `correction`, `synthetic` marker and the
source metadata. -/
structure InterpretedValue where
  t : DateTime
  fv : ℚ
  dfv : Option ℚ
  dt : Option Int
  correction : ℚ
  synthetic : Bool
  filename : String
  filename_data : FilenameData
deriving DecidableEq

/-- `GroupedData`: one bucket of same-group samples. `sum_t` is in microseconds. -/
structure GroupedData where
  group_id : Int × Int × Int × Int × Int × Int
  min_t : DateTime
  max_t : DateTime
  min_fv : ℚ
  max_fv : ℚ
  sum : ℚ
  sum_t : Int
  synthetic_count : Int
  source_points : Int
  max_event_num : Option Int
deriving DecidableEq

/-- `CumulativeGroupedData`: a bucket enriched with the running counters. -/
structure CumulativeGroupedData extends GroupedData where
  cum : ℚ
  spp : ℚ
  zpp : Int
deriving DecidableEq

/-- The two ways the engine's Python code can raise: comparing an absent
optional field with a number (`TypeError`), and the synthesis-conservation
`assert` (`AssertionError`). -/
inductive PyErr
  | typeError
  | assertionError
deriving DecidableEq

/-- Python `x > y` for `x : Optional[float]`, `y` a float literal:
`None > y` raises `TypeError`. -/
def pyGtOpt (x : Option ℚ) (y : ℚ) : Except PyErr Bool :=
  match x with
  | none => .error .typeError
  | some q => .ok (decide (y < q))

/-- Python `min` of two datetimes (returns the second argument only when it is
strictly smaller; aware datetimes compare by instant). -/
def pyMinT (a b : DateTime) : DateTime := if b.usecs < a.usecs then b else a

/-- Python `max` of two datetimes. -/
def pyMaxT (a b : DateTime) : DateTime := if a.usecs < b.usecs then b else a

/-! ## Synthetic interpolation (`_get_amended_values`) -/

/-- The `for cur_t in t_steps` loop body of `_get_amended_values`: starting
from the previous sample's value, emit one synthetic `InterpretedValue` per
boundary, advancing `cur_fv` by `fv_step` each time; `dfv` and `dt` are
computed against the previous (possibly synthetic) sample, `synthetic=True`,
and the filename/metadata of the triggering sample are inherited. -/
def synthLoop (fvStep : ℚ) (fn : String) (fd : FilenameData) :
    DateTime → ℚ → List DateTime → List InterpretedValue
  | _, _, [] => []
  | lastT, lastFv, curT :: ts =>
      let curFv := lastFv + fvStep
      ⟨curT, curFv, some (curFv - lastFv), some (curT.usecs - lastT.usecs),
        0, true, fn, fd⟩ :: synthLoop fvStep fn fd curT curFv ts

/-- Python `t_steps[-10:]` (`MAX_SYNTHETIC_VALUES_TO_INSERT = 10`). -/
def lastTen (l : List DateTime) : List DateTime := l.drop (l.length - 10)

/-- The synthetic chunk emitted for one triggering sample `v` after `lv`:
`fv_step = value.dfv / len(t_steps)` over the last ten boundaries. -/
def amendChunk (r : Resolution) (lv v : InterpretedValue) : List InterpretedValue :=
  let ts := lastTen (get_time_steps_between r lv.t v.t)
  synthLoop (v.dfv.getD 0 / ts.length) v.filename v.filename_data lv.t lv.fv ts

/-- `sum_of_amendeds` accumulated over a chunk (Python `+=` left fold). -/
def sumOfAmendeds (chunk : List InterpretedValue) : ℚ :=
  chunk.foldl (fun acc x => acc + x.dfv.getD 0) 0

/-- One step of `_get_amended_values`' trigger test:
`last_value and value.dfv > 0.1 and last_value.dfv > 0` with Python
short-circuiting (and `TypeError` on absent operands). -/
def amendTrigger (lastOpt : Option InterpretedValue) (v : InterpretedValue) :
    Except PyErr Bool :=
  match lastOpt with
  | none => .ok false
  | some lv =>
      match pyGtOpt v.dfv (1/10) with
      | .error e => .error e
      | .ok b1 => if b1 then pyGtOpt lv.dfv 0 else .ok false

/-- The loop of `DataGatherer._get_amended_values`, carrying `last_value`.
When the trigger fires and at least one step boundary exists, the synthetic
chunk replaces the triggering sample (which is *not* re-emitted), the
conservation `assert` is checked, and `last_value` becomes the last synthetic
sample; otherwise the sample is passed through. -/
def amendGo (r : Resolution) : Option InterpretedValue → List InterpretedValue →
    Except PyErr (List InterpretedValue)
  | _, [] => .ok []
  | lastOpt, v :: rest =>
      match amendTrigger lastOpt v with
      | .error e => .error e
      | .ok b =>
        match lastOpt, b with
        | some lv, true =>
            if get_time_steps_between r lv.t v.t ≠ [] then
              let chunk := amendChunk r lv v
              if |sumOfAmendeds chunk - v.dfv.getD 0| < 1/10000 then
                match amendGo r (some (chunk.getLastD lv)) rest with
                | .error e => .error e
                | .ok out => .ok (chunk ++ out)
              else .error .assertionError
            else
              match amendGo r (some v) rest with
              | .error e => .error e
              | .ok out => .ok (v :: out)
        | _, _ =>
            match amendGo r (some v) rest with
            | .error e => .error e
            | .ok out => .ok (v :: out)

/-- `DataGatherer._get_amended_values`. -/
def get_amended_values (r : Resolution) (values : List InterpretedValue) :
    Except PyErr (List InterpretedValue) :=
  amendGo r none values

/-! ## Bucketing (`_get_grouped_data`) -/

/-- The `GroupedData(...)` constructor call that opens a new bucket from a
sample (`sum = value.dfv or 0.0`, `sum_t = value.dt or timedelta(0)`). -/
def seedEntry (g : Int × Int × Int × Int × Int × Int) (v : InterpretedValue) : GroupedData :=
  { group_id := g
    min_t := v.t
    max_t := v.t
    min_fv := v.fv
    max_fv := v.fv
    sum := v.dfv.getD 0
    sum_t := v.dt.getD 0
    synthetic_count := if v.synthetic then 1 else 0
    source_points := 1
    max_event_num := v.filename_data.event_number }

/-- The else-branch of `_get_grouped_data`: merge a sample into the open
bucket (`max_event_num` via `max(value or 0, entry or 0) or None`). -/
def mergeEntry (e : GroupedData) (v : InterpretedValue) : GroupedData :=
  { e with
    min_t := pyMinT v.t e.min_t
    max_t := pyMaxT v.t e.max_t
    min_fv := min v.fv e.min_fv
    max_fv := max v.fv e.max_fv
    sum := e.sum + v.dfv.getD 0
    sum_t := e.sum_t + v.dt.getD 0
    synthetic_count := e.synthetic_count + (if v.synthetic then 1 else 0)
    source_points := e.source_points + 1
    max_event_num :=
      if max (v.filename_data.event_number.getD 0) (e.max_event_num.getD 0) = 0
      then none
      else some (max (v.filename_data.event_number.getD 0) (e.max_event_num.getD 0)) }

/-- The loop of `DataGatherer._get_grouped_data`.  `last_group` and the open
`entry` are `None` together exactly at the start, so they are carried as one
optional pair; a bucket is emitted when a sample with a different group key
arrives, and the final open bucket is emitted at stream end. -/
def groupedGo (r : Resolution) :
    Option ((Int × Int × Int × Int × Int × Int) × GroupedData) →
    List InterpretedValue → List GroupedData
  | some (_, e), [] => [e]
  | none, [] => []
  | st, v :: vs =>
      let g := get_group r v.t
      match st with
      | none => groupedGo r (some (g, seedEntry g v)) vs
      | some (lg, e) =>
          if g ≠ lg then e :: groupedGo r (some (g, seedEntry g v)) vs
          else groupedGo r (some (lg, mergeEntry e v)) vs

/-- `DataGatherer._get_grouped_data` with `amend_values` disabled. -/
def get_grouped_data_plain (r : Resolution) (values : List InterpretedValue) :
    List GroupedData :=
  groupedGo r none values

/-- `DataGatherer._get_grouped_data`: reads either `_get_amended_values()` or
`processor.get_values()` according to the `amend_values` flag. -/
def get_grouped_data (r : Resolution) (amend : Bool) (values : List InterpretedValue) :
    Except PyErr (List GroupedData) :=
  if amend then do
    let vs ← get_amended_values r values
    .ok (groupedGo r none vs)
  else .ok (groupedGo r none values)

/-! ## Gap detection (`_get_grouped_data_and_gap_lengths`) -/

/-- The loop of `DataGatherer._get_grouped_data_and_gap_lengths`, carrying
`last_entry`: before each bucket after the first, emit `(None, gap)` when at
least one bucket boundary lies between the previous bucket's end and this
bucket's start, then emit `(entry, None)`. Gaps are timedeltas in
microseconds. -/
def gapsGo (r : Resolution) :
    Option GroupedData → List GroupedData → List (Option GroupedData × Option Int)
  | _, [] => []
  | lastE, e :: es =>
      (match lastE with
       | some le =>
           if has_time_steps_between r le.max_t e.min_t then
             [(none, some (e.min_t.usecs - le.max_t.usecs)), (some e, none)]
           else [(some e, none)]
       | none => [(some e, none)]) ++ gapsGo r (some e) es

/-- `DataGatherer._get_grouped_data_and_gap_lengths` as a function of the
bucket list produced by `_get_grouped_data`. -/
def grouped_data_and_gap_lengths (r : Resolution) (l : List GroupedData) :
    List (Option GroupedData × Option Int) :=
  gapsGo r none l

/-- Spec-side formulation of gap emission, written from the specification's
words: every bucket is emitted in order; for each pair `(A, B)` of buckets
adjacent in the output, a gap of duration `B.min_t − A.max_t` is emitted
immediately before `B` exactly when
`step_after(A.max_t) < truncate(B.min_t)`. -/
def gapSpecOutput (r : Resolution) (l : List GroupedData) :
    List (Option GroupedData × Option Int) :=
  match l with
  | [] => []
  | b0 :: rest =>
      (some b0, none) :: (l.zip rest).flatMap (fun ab =>
        if (step_timestamp r ab.1.max_t).usecs < (truncate_timestamp r ab.2.min_t).usecs then
          [(none, some (ab.2.min_t.usecs - ab.1.max_t.usecs)), (some ab.2, none)]
        else [(some ab.2, none)])

/-! ## Cumulative/reset tracking (`get_grouped_data_and_gap_lengths`) -/

/-- The running state of the cumulative pass. -/
structure CumState where
  last_period : Option (Int × Int × Int)
  sum_per_period : ℚ
  zeroings_per_period : Int
  cumulative_since_0 : ℚ
  zeros_in_row : Int
deriving DecidableEq

/-- Initial state: `last_period = None`, `sum_per_period = 0.0`,
`zeroings_per_period = 1`, `cumulative_since_0 = 0.0`, `zeros_in_row = 0`. -/
def initCumState : CumState := ⟨none, 0, 1, 0, 0⟩

/-- `is_big_gap = (gap and gap >= timedelta(seconds=30))`: a present, truthy
(nonzero) gap of at least 30 seconds. -/
def isBigGapOf (gap : Option Int) : Bool :=
  match gap with
  | some g => decide (g ≠ 0) && decide (30000000 ≤ g)
  | none => false

/-- The zero-streak block of `get_grouped_data_and_gap_lengths` (the
`if is_big_gap or (entry and entry.sum == 0.0)` statement): returns the new
`(cumulative_since_0, zeroings_per_period, zeros_in_row)`. -/
def streakUpdate (r : Resolution) (isBigGap : Bool) (entry : Option GroupedData)
    (cum : ℚ) (zpp zeros : Int) : ℚ × Int × Int :=
  if isBigGap || entry.any (fun e => decide (e.sum = 0)) then
    let z := zeros + 1
    if isBigGap || decide (zeros_per_cumulating r ≤ z) then
      (0, if z = zeros_per_cumulating r then zpp + 1 else zpp, z)
    else (cum, zpp, z)
  else (cum, zpp, 0)

/-- The `elif entry:` branch: on a calendar-day change (date string of the
bucket's `min_t` differs from `last_period`) reset `sum_per_period` to 0 and
`zeroings_per_period` to 1 before reading them into the emitted record. -/
def entryBranch (lastP : Option (Int × Int × Int)) (spp1 : ℚ) (zpp1 : Int)
    (cum2 : ℚ) (zeros1 : Int) (entry : Option GroupedData) :
    CumState × List (CumulativeGroupedData ⊕ Int) :=
  match entry with
  | none => (⟨lastP, spp1, zpp1, cum2, zeros1⟩, [])
  | some e =>
      let p := dateKey e.min_t
      if some p ≠ lastP then
        (⟨some p, 0, 1, cum2, zeros1⟩, [Sum.inl ⟨e, cum2, 0, 1⟩])
      else
        (⟨lastP, spp1, zpp1, cum2, zeros1⟩, [Sum.inl ⟨e, cum2, spp1, zpp1⟩])

/-- One iteration of the `for (entry, gap) in ...` loop of
`DataGatherer.get_grouped_data_and_gap_lengths`: accumulate the bucket sum
into the day and cumulative counters, run the zero-streak block, then either
pass the (truthy) gap through or emit the enriched bucket. -/
def cumStep (r : Resolution) (st : CumState) (elem : Option GroupedData × Option Int) :
    CumState × List (CumulativeGroupedData ⊕ Int) :=
  let isBigGap := isBigGapOf elem.2
  let spp1 := match elem.1 with
    | some e => st.sum_per_period + e.sum
    | none => st.sum_per_period
  let cum1 := match elem.1 with
    | some e => st.cumulative_since_0 + e.sum
    | none => st.cumulative_since_0
  let s := streakUpdate r isBigGap elem.1 cum1 st.zeroings_per_period st.zeros_in_row
  match elem.2 with
  | some g =>
      if g ≠ 0 then (⟨st.last_period, spp1, s.2.1, s.1, s.2.2⟩, [Sum.inr g])
      else entryBranch st.last_period spp1 s.2.1 s.1 s.2.2 elem.1
  | none => entryBranch st.last_period spp1 s.2.1 s.1 s.2.2 elem.1

/-- The full loop of `DataGatherer.get_grouped_data_and_gap_lengths`. -/
def cumGo (r : Resolution) (st : CumState) :
    List (Option GroupedData × Option Int) → List (CumulativeGroupedData ⊕ Int)
  | [] => []
  | e :: es => (cumStep r st e).2 ++ cumGo r (cumStep r st e).1 es

/-- `DataGatherer.get_grouped_data_and_gap_lengths` as a function of the
`(entry, gap)` stream produced by `_get_grouped_data_and_gap_lengths`. -/
def cumulative_output (r : Resolution) (l : List (Option GroupedData × Option Int)) :
    List (CumulativeGroupedData ⊕ Int) :=
  cumGo r initCumState l

/-- The buckets of the cumulative output, in emission order. -/
def bucketsOf (l : List (CumulativeGroupedData ⊕ Int)) : List CumulativeGroupedData :=
  l.filterMap (fun x => match x with | Sum.inl c => some c | Sum.inr _ => none)

/-! ## Rendering (`get_visualization`) -/

/-- The three shapes of the flow-rate part of a rendered bucket line. -/
inductive FlowRateDisplay
  | blank
  | klPerYear (q : ℚ)
  | lPerMin (q : ℚ)
deriving DecidableEq

/-- `SECONDS_PER_YEAR = 60.0 * 60.0 * 24.0 * 365.24`. -/
def SECONDS_PER_YEAR : ℚ := 60 * 60 * 24 * (36524 / 100)

/-- The flow-rate estimate of one rendered bucket line in `get_visualization`:
`drops = sum * 1000 * 20`; with no drops the field is blank; when the bucket
spans more than one hour the annualized project from the value extremes is
shown in kilolitres/year; otherwise litres/minute computed from `sum` over
`sum_t.total_seconds()` (the accumulated `dt` seconds, *not* the bucket's
time span). -/
def flowRateOf (e : CumulativeGroupedData) : FlowRateDisplay :=
  let drops := e.sum * 1000 * 20
  let secs : ℚ := (e.sum_t : ℚ) / 1000000
  if drops = 0 then .blank
  else if 3600000000 < e.max_t.usecs - e.min_t.usecs then
    let spanSecs : ℚ := ((e.max_t.usecs - e.min_t.usecs : Int) : ℚ) / 1000000
    .klPerYear ((e.max_fv - e.min_fv) / spanSecs * SECONDS_PER_YEAR / 1000)
  else .lPerMin (60 * e.sum / secs)

/-! ## `make_bar` -/

/-- The eighth-block gradient table `BAR_SYMBOLS`. -/
def BAR_SYMBOLS : List Char :=
  ['▏', '▎', '▍', '▌', '▋', '▊', '▉', '█']

/-- `BAR_SYMBOL_FULL = BAR_SYMBOLS[-1]`. -/
def BAR_SYMBOL_FULL : Char := '█'

/-- Python 3 `round` on a float value in fractional position: round half to
even. -/
def pyRound (q : ℚ) : Int :=
  let f := ⌊q⌋
  let r := q - f
  if r < 1/2 then f
  else if 1/2 < r then f + 1
  else if f % 2 = 0 then f else f + 1

/-- The fractional final character of `make_bar`:
`BAR_SYMBOLS_MAP.get(int(round(fractions * 7)), 'ERR')` when the fractional
part is nonzero (the dict lookup falls back to the string `'ERR'` outside
`0..7`). -/
def make_bar_frac (fractions : ℚ) : List Char :=
  if fractions = 0 then []
  else
    let idx := pyRound (fractions * 7)
    if 0 ≤ idx ∧ idx ≤ 7 then [BAR_SYMBOLS.getD idx.toNat BAR_SYMBOL_FULL]
    else ['E', 'R', 'R']

/-- The non-negative branch of `make_bar` (`int(value)` truncates, which on
the non-negative arguments this branch receives is the floor). -/
def make_bar_nonneg (value : ℚ) : List Char :=
  let totals := ⌊value⌋
  List.replicate totals.toNat BAR_SYMBOL_FULL ++ make_bar_frac (value - totals)

/-- `make_bar`: negative values recurse on the negation with a `'-'` prefix
(the recursive call lands in the non-negative branch), strings modelled as
character lists. -/
def make_bar (value : ℚ) : List Char :=
  if value < 0 then '-' :: make_bar_nonneg (-value) else make_bar_nonneg value

/-! ## Claim C2: gap emission -/

/-- The stateful gap loop, started after its first bucket, equals the
pairwise spec formulation. -/
theorem gapsGo_some (r : Resolution) :
    ∀ (l : List GroupedData) (a : GroupedData),
      gapsGo r (some a) l = ((a :: l).zip l).flatMap (fun ab =>
        if (step_timestamp r ab.1.max_t).usecs < (truncate_timestamp r ab.2.min_t).usecs then
          [(none, some (ab.2.min_t.usecs - ab.1.max_t.usecs)), (some ab.2, none)]
        else [(some ab.2, none)]) := by
  intro l
  induction l with
  | nil => intro a; rfl
  | cons b bs ih =>
      intro a
      simp only [gapsGo, List.zip_cons_cons, List.flatMap_cons]
      rw [ih b]
      simp only [has_time_steps_between]

/-- C2: For every two buckets A and B adjacent in the output order, a Gap is
emitted before B if and only if `step_after(A.max_t) < truncate(B.min_t)`,
and the emitted Gap's duration equals exactly `B.min_t - A.max_t`; no Gap is
emitted otherwise (in particular when the buckets occupy the same or adjacent
boundaries): the gap pass coincides with the pairwise specification
`gapSpecOutput`. -/
theorem C2_gap_emission (r : Resolution) (l : List GroupedData) :
    grouped_data_and_gap_lengths r l = gapSpecOutput r l := by
  cases l with
  | nil => rfl
  | cons b0 rest =>
      show gapsGo r none (b0 :: rest) = _
      simp only [gapsGo, gapSpecOutput, List.singleton_append]
      rw [gapsGo_some r rest b0]

/-! ## Claim C4: null-safety of the optional fields -/

/-- Replace an absent `dfv`/`dt` by an explicit zero. -/
def fillNullFields (v : InterpretedValue) : InterpretedValue :=
  { v with dfv := some (v.dfv.getD 0), dt := some (v.dt.getD 0) }

theorem seedEntry_fill (g : Int × Int × Int × Int × Int × Int) (v : InterpretedValue) :
    seedEntry g (fillNullFields v) = seedEntry g v := by
  simp only [seedEntry, fillNullFields, Option.getD_some]

theorem mergeEntry_fill (e : GroupedData) (v : InterpretedValue) :
    mergeEntry e (fillNullFields v) = mergeEntry e v := by
  simp only [mergeEntry, fillNullFields, Option.getD_some]

/-- The plain bucketing loop does not distinguish an absent `dfv`/`dt` from an
explicit zero. -/
theorem groupedGo_fillNull (r : Resolution) :
    ∀ (values : List InterpretedValue)
      (st : Option ((Int × Int × Int × Int × Int × Int) × GroupedData)),
      groupedGo r st (values.map fillNullFields) = groupedGo r st values := by
  intro values
  induction values with
  | nil => intro st; rfl
  | cons v vs ih =>
      intro st
      have ht : (fillNullFields v).t = v.t := rfl
      cases st with
      | none =>
          simp only [List.map_cons, groupedGo, ht, seedEntry_fill]
          exact ih _
      | some p =>
          simp only [List.map_cons, groupedGo, ht, seedEntry_fill, mergeEntry_fill]
          by_cases h : get_group r v.t ≠ p.1
          · rw [if_pos h, if_pos h, ih]
          · rw [if_neg h, if_neg h, ih]

/-- C4 (amended): the plain (non-amending) pipeline never raises and treats an
absent `dfv`/`dt` exactly as zero — replacing the absent optional fields by
explicit zeros leaves its output unchanged.  (The `amend_values` pipeline is
*not* null-safe; see the counterexample.) -/
theorem C4_plain_null_safety (r : Resolution) (values : List InterpretedValue) :
    get_grouped_data r false values = .ok (get_grouped_data_plain r values) ∧
    get_grouped_data_plain r (values.map fillNullFields) = get_grouped_data_plain r values := by
  refine ⟨rfl, ?_⟩
  exact groupedGo_fillNull r values none

/-- A two-sample stream whose second sample has an absent `dfv`. -/
def cexNullValue1 : InterpretedValue := ⟨⟨0, 0⟩, 1, some 1, none, 0, false, "a", ⟨none⟩⟩

/-- Second sample: `dfv` absent. -/
def cexNullValue2 : InterpretedValue := ⟨⟨1000000, 0⟩, 2, none, none, 0, false, "b", ⟨none⟩⟩

/-- C4 counterexample: with `amend_values` enabled, a well-formed stream whose
second sample has an absent `dfv` crashes the engine with a `TypeError`
(`value.dfv > 0.1` compares `None` with a float), instead of treating the
absent delta as zero. -/
theorem C4_counterexample :
    get_grouped_data Resolution.day true [cexNullValue1, cexNullValue2]
      = .error .typeError ∧
    get_amended_values Resolution.day [cexNullValue1, cexNullValue2]
      = .error .typeError := by
  exact ⟨rfl, rfl⟩

/-! ## Claim C1: the day-sum counter `spp` -/

theorem bucketsOf_append (a b : List (CumulativeGroupedData ⊕ Int)) :
    bucketsOf (a ++ b) = bucketsOf a ++ bucketsOf b := by
  simp only [bucketsOf, List.filterMap_append]

/-- A gap element changes neither `last_period` nor `sum_per_period` and emits
no bucket. -/
theorem cumStep_gap_facts (r : Resolution) (st : CumState) (g : Int) :
    (cumStep r st (none, some g)).1.last_period = st.last_period ∧
    (cumStep r st (none, some g)).1.sum_per_period = st.sum_per_period ∧
    bucketsOf (cumStep r st (none, some g)).2 = [] := by
  simp only [cumStep, entryBranch]
  by_cases h : g ≠ 0
  · rw [if_pos h]; exact ⟨rfl, rfl, rfl⟩
  · rw [if_neg h]; exact ⟨rfl, rfl, rfl⟩

/-- An empty element changes neither `last_period` nor `sum_per_period` and
emits no bucket. -/
theorem cumStep_none_facts (r : Resolution) (st : CumState) :
    (cumStep r st (none, none)).1.last_period = st.last_period ∧
    (cumStep r st (none, none)).1.sum_per_period = st.sum_per_period ∧
    bucketsOf (cumStep r st (none, none)).2 = [] := by
  exact ⟨rfl, rfl, rfl⟩

/-- A bucket element emits exactly one enriched bucket; its `spp` is
`sum_per_period + sum` when the calendar date matches `last_period` and `0`
otherwise, and the state records that date and that `spp`. -/
theorem cumStep_entry_facts (r : Resolution) (st : CumState) (e : GroupedData) :
    (cumStep r st (some e, none)).1.last_period = some (dateKey e.min_t) ∧
    (cumStep r st (some e, none)).1.sum_per_period =
      (if st.last_period = some (dateKey e.min_t)
       then st.sum_per_period + e.sum else 0) ∧
    ∃ c z, bucketsOf (cumStep r st (some e, none)).2 =
      [⟨e, c, (if st.last_period = some (dateKey e.min_t)
               then st.sum_per_period + e.sum else 0), z⟩] := by
  simp only [cumStep, entryBranch]
  by_cases h : some (dateKey e.min_t) ≠ st.last_period
  · rw [if_pos h, if_neg (by intro hc; exact h hc.symm)]
    exact ⟨rfl, rfl, _, _, rfl⟩
  · push_neg at h
    rw [if_neg (by simp [h]), if_pos h.symm]
    exact ⟨h.symm, rfl, _, _, rfl⟩

/-- Invariant form of the `spp` recurrence: relative to a starting state, the
first emitted bucket carries `sum_per_period + sum` when its date matches
`last_period` (else `0`), and each later bucket carries the previous bucket's
`spp` plus its own `sum` when the dates match (else `0`). -/
theorem cumGo_spp_invariant (r : Resolution) :
    ∀ (elems : List (Option GroupedData × Option Int)) (st : CumState),
      (∀ e ∈ elems, e.1 = none ∨ e.2 = none) →
      (∀ b ∈ (bucketsOf (cumGo r st elems)).head?,
          b.spp = if st.last_period = some (dateKey b.min_t)
                  then st.sum_per_period + b.sum else 0) ∧
      (bucketsOf (cumGo r st elems)).Chain'
        (fun a b => b.spp = if dateKey b.min_t = dateKey a.min_t then a.spp + b.sum else 0) := by
  intro elems
  induction elems with
  | nil =>
      intro st _
      exact ⟨by intro b hb; simp [cumGo, bucketsOf] at hb, by simp [cumGo, bucketsOf]⟩
  | cons el els ih =>
      intro st hwf
      have hwf' : ∀ e ∈ els, e.1 = none ∨ e.2 = none :=
        fun e he => hwf e (List.mem_cons_of_mem _ he)
      have hel := hwf el (List.mem_cons_self _ _)
      have hgo : cumGo r st (el :: els)
          = (cumStep r st el).2 ++ cumGo r (cumStep r st el).1 els := rfl
      rw [hgo, bucketsOf_append]
      rcases el with ⟨entry, gap⟩
      rcases entry with _ | e
      · -- no bucket in this element
        have hfacts : (cumStep r st (none, gap)).1.last_period = st.last_period ∧
            (cumStep r st (none, gap)).1.sum_per_period = st.sum_per_period ∧
            bucketsOf (cumStep r st (none, gap)).2 = [] := by
          cases gap with
          | none => exact cumStep_none_facts r st
          | some g => exact cumStep_gap_facts r st g
        rw [hfacts.2.2, List.nil_append]
        have hih := ih (cumStep r st (none, gap)).1 hwf'
        refine ⟨?_, hih.2⟩
        intro b hb
        have := hih.1 b hb
        rwa [hfacts.1, hfacts.2.1] at this
      · -- a bucket element; well-formedness forces the gap component to be `none`
        have hgap : gap = none := by
          rcases hel with h | h
          · exact absurd h (by simp)
          · exact h
        subst hgap
        obtain ⟨hlast, hspp, c, z, hout⟩ := cumStep_entry_facts r st e
        rw [hout]
        have hih := ih (cumStep r st (some e, none)).1 hwf'
        constructor
        · intro b hb
          simp only [List.cons_append, List.head?_cons, Option.mem_def,
            Option.some.injEq] at hb
          subst hb
          exact hspp ▸ rfl
        · rw [List.cons_append]
          refine List.chain'_cons'.mpr ⟨?_, hih.2⟩
          intro y hy
          have hyspp := hih.1 y hy
          rw [hlast, hspp] at hyspp
          have hcond : (some (dateKey e.min_t) = some (dateKey y.min_t))
              ↔ (dateKey y.min_t = dateKey e.min_t) := by
            simp [eq_comm]
          simp only [hcond] at hyspp
          exact hyspp

/-- A single-bucket input for the `spp` counterexample: one bucket of
2018-09-24 with `sum = 5`. -/
def cexBucketA : GroupedData :=
  ⟨(2018, 9, 24, 0, 0, 0), ⟨1537736400000000, 10800⟩, ⟨1537736400000000, 10800⟩,
   100, 105, 5, 0, 0, 2, none⟩

/-- C1 counterexample: the first (and only) bucket of a calendar day is
emitted with `spp = 0.0`, not with `spp` equal to its own `sum` (= 5): the
code accumulates `sum_per_period += entry.sum` *before* the new-day check
resets `sum_per_period` to 0, so the day's first bucket's sum is wiped from
`spp`. -/
theorem C1_counterexample :
    bucketsOf (cumulative_output Resolution.day [(some cexBucketA, none)])
      = [⟨cexBucketA, 5, 0, 1⟩] ∧ cexBucketA.sum = 5 ∧ ((0 : ℚ) ≠ 5) := by
  refine ⟨?_, rfl, by norm_num⟩
  norm_num [bucketsOf, cumulative_output, cumGo, cumStep, entryBranch, streakUpdate,
    isBigGapOf, initCumState, cexBucketA, List.filterMap]

/-- C1 (amended): for every well-formed element stream (each element is a
bucket or a gap, never both), the emitted `spp` fields satisfy: the first
emitted bucket carries `spp = 0`, and every later bucket carries the previous
bucket's `spp` plus its own `sum` when both share the calendar date of
`min_t`, and `0` on a date change — equivalently, `spp` is the sum of the
`sum` fields of the same-date buckets emitted so far *excluding the first
bucket of the current day* (whose sum is accumulated and then immediately
reset away before emission). -/
theorem C1_spp_day_sums (r : Resolution) (elems : List (Option GroupedData × Option Int))
    (hwf : ∀ e ∈ elems, e.1 = none ∨ e.2 = none) :
    (∀ b ∈ (bucketsOf (cumulative_output r elems)).head?, b.spp = 0) ∧
    (bucketsOf (cumulative_output r elems)).Chain'
      (fun a b => b.spp = if dateKey b.min_t = dateKey a.min_t then a.spp + b.sum else 0) := by
  have h := cumGo_spp_invariant r elems initCumState hwf
  refine ⟨?_, h.2⟩
  intro b hb
  have hh := h.1 b hb
  simpa [initCumState] using hh

/-- A second bucket on the same date as `cexBucketA`, with `sum = 2`. -/
def cexBucketB : GroupedData :=
  ⟨(2018, 9, 24, 0, 0, 0), ⟨1537779600000000, 10800⟩, ⟨1537779600000000, 10800⟩,
   105, 107, 2, 0, 0, 1, none⟩

/-- Witness for C1 (amended) on a concrete three-element stream (two same-date
buckets separated by a 40-second gap). -/
theorem C1_spp_day_sums_witness :
    (∀ e ∈ ([(some cexBucketA, none), (none, some 40000000), (some cexBucketB, none)]
        : List (Option GroupedData × Option Int)), e.1 = none ∨ e.2 = none) ∧
    ((∀ b ∈ (bucketsOf (cumulative_output Resolution.day
        [(some cexBucketA, none), (none, some 40000000), (some cexBucketB, none)])).head?,
        b.spp = 0) ∧
      (bucketsOf (cumulative_output Resolution.day
        [(some cexBucketA, none), (none, some 40000000), (some cexBucketB, none)])).Chain'
        (fun a b => b.spp = if dateKey b.min_t = dateKey a.min_t then a.spp + b.sum else 0)) :=
  ⟨by decide, C1_spp_day_sums Resolution.day
    [(some cexBucketA, none), (none, some 40000000), (some cexBucketB, none)] (by decide)⟩

/-! ## Claim C5: the zero-streak block -/

/-- C5: in the cumulative/reset pass, for every element that is a big gap
(present, nonzero, ≥ 30 s) or a bucket with `sum == 0.0`: the zero streak is
incremented; `cumulative_since_reset` is set to exactly `0.0` iff the element
is a big gap or the incremented streak reaches the resolution's
`zeros_per_cumulating` threshold (otherwise it keeps its accumulated value);
and `zeroings_per_calendar_day` is incremented iff the incremented streak
*exactly equals* the threshold. -/
theorem C5_streak_update (r : Resolution) (isBigGap : Bool) (entry : Option GroupedData)
    (cum : ℚ) (zpp zeros : Int)
    (h : isBigGap = true ∨ entry.any (fun e => decide (e.sum = 0)) = true) :
    streakUpdate r isBigGap entry cum zpp zeros =
      ((if isBigGap = true ∨ zeros_per_cumulating r ≤ zeros + 1 then 0 else cum),
       (if zeros + 1 = zeros_per_cumulating r then zpp + 1 else zpp),
       zeros + 1) := by
  unfold streakUpdate
  rw [if_pos (by simpa [Bool.or_eq_true] using h)]
  by_cases hr : isBigGap = true ∨ zeros_per_cumulating r ≤ zeros + 1
  · rw [if_pos (by simpa [Bool.or_eq_true, decide_eq_true_eq] using hr), if_pos hr]
  · rw [if_neg (by simpa [Bool.or_eq_true, decide_eq_true_eq] using hr), if_neg hr]
    rw [if_neg (by intro hc; exact hr (Or.inr (le_of_eq hc.symm)))]

/-- Witness for C5 at `minute` resolution (threshold 1) on a zero-sum bucket. -/
theorem C5_streak_update_witness :
    ((false : Bool) = true ∨
      (some { cexBucketA with sum := 0 } : Option GroupedData).any
        (fun e => decide (e.sum = 0)) = true) ∧
    streakUpdate Resolution.minute false (some { cexBucketA with sum := 0 }) 7 1 0 =
      ((if (false : Bool) = true ∨ zeros_per_cumulating Resolution.minute ≤ 0 + 1
        then 0 else 7),
       (if 0 + 1 = zeros_per_cumulating Resolution.minute then 1 + 1 else 1),
       0 + 1) :=
  ⟨by decide,
   C5_streak_update Resolution.minute false (some { cexBucketA with sum := 0 }) 7 1 0
     (by decide)⟩

/-! ## Claim C9: short gaps reset the streak -/

/-- C9 (implicit): processing a gap-only element shorter than 30 seconds
falls into the nonzero branch and resets the zero-streak counter to 0 (so a
run of zero buckets interrupted by a short gap cannot accumulate to the reset
threshold across the gap). -/
theorem C9_short_gap_resets_streak (r : Resolution) (st : CumState) (g : Int)
    (h : g < 30000000) :
    (cumStep r st (none, some g)).1.zeros_in_row = 0 := by
  have hbig : isBigGapOf (some g) = false := by
    simp only [isBigGapOf, Bool.and_eq_false_iff, decide_eq_false_iff_not]
    omega
  simp only [cumStep, streakUpdate, hbig, entryBranch, Option.any_none, Bool.false_or,
    Bool.or_self, Bool.false_eq_true, if_false]
  by_cases hg : g ≠ 0
  · rw [if_pos hg]
  · rw [if_neg hg]

/-- Witness for C9: a 10-second gap resets a streak of 5. -/
theorem C9_short_gap_resets_streak_witness :
    ((10000000 : Int) < 30000000) ∧
    (cumStep Resolution.minute ⟨none, 0, 1, 3, 5⟩ (none, some 10000000)).1.zeros_in_row = 0 :=
  ⟨by norm_num,
   C9_short_gap_resets_streak Resolution.minute ⟨none, 0, 1, 3, 5⟩ 10000000 (by norm_num)⟩

/-! ## Claims C3 and C6: synthetic interpolation -/

theorem synthLoop_foldl (fvStep : ℚ) (fn : String) (fd : FilenameData) :
    ∀ (ts : List DateTime) (lastT : DateTime) (lastFv acc : ℚ),
      (synthLoop fvStep fn fd lastT lastFv ts).foldl
          (fun a x => a + x.dfv.getD 0) acc
        = acc + ts.length * fvStep := by
  intro ts
  induction ts with
  | nil => intro lastT lastFv acc; simp [synthLoop]
  | cons t ts ih =>
      intro lastT lastFv acc
      simp only [synthLoop, List.foldl_cons, Option.getD_some, List.length_cons]
      rw [ih t (lastFv + fvStep)]
      push_cast
      ring

/-- The synthesized deltas of one chunk sum exactly to
`len(t_steps) * fv_step`. -/
theorem sumOfAmendeds_synthLoop (fvStep : ℚ) (fn : String) (fd : FilenameData)
    (ts : List DateTime) (lastT : DateTime) (lastFv : ℚ) :
    sumOfAmendeds (synthLoop fvStep fn fd lastT lastFv ts) = ts.length * fvStep := by
  unfold sumOfAmendeds
  rw [synthLoop_foldl fvStep fn fd ts lastT lastFv 0]
  ring

theorem lastTen_length (l : List DateTime) :
    (lastTen l).length = min l.length 10 := by
  simp only [lastTen, List.length_drop]
  omega

/-- Exact conservation: the synthesized deltas of a nonempty chunk sum to the
triggering sample's `dfv`. -/
theorem amendChunk_sum (r : Resolution) (lv v : InterpretedValue)
    (hts : get_time_steps_between r lv.t v.t ≠ []) :
    sumOfAmendeds (amendChunk r lv v) = v.dfv.getD 0 := by
  unfold amendChunk
  rw [sumOfAmendeds_synthLoop]
  have hlen : (lastTen (get_time_steps_between r lv.t v.t)).length
      = min (get_time_steps_between r lv.t v.t).length 10 := lastTen_length _
  have hpos : 0 < (lastTen (get_time_steps_between r lv.t v.t)).length := by
    rw [hlen]
    have : 0 < (get_time_steps_between r lv.t v.t).length :=
      List.length_pos.mpr hts
    omega
  have hne : ((lastTen (get_time_steps_between r lv.t v.t)).length : ℚ) ≠ 0 := by
    exact_mod_cast (by omega : (lastTen (get_time_steps_between r lv.t v.t)).length ≠ 0)
  field_simp

/-- The amendment pass can only fail with a `TypeError`: the conservation
`assert` never fires, because the synthesized deltas always sum exactly to the
triggering delta. -/
theorem amendGo_no_assertionError (r : Resolution) :
    ∀ (values : List InterpretedValue) (lastOpt : Option InterpretedValue),
      amendGo r lastOpt values ≠ .error .assertionError := by
  intro values
  induction values with
  | nil => intro lastOpt h; exact Except.noConfusion h
  | cons v rest ih =>
      intro lastOpt
      rcases htr : amendTrigger lastOpt v with e | b
      · -- the trigger test itself raised; `e` can only be a TypeError
        have he : e = .typeError := by
          rcases lastOpt with _ | lv
          · simp [amendTrigger] at htr
          · rcases hdfv : v.dfv with _ | dq
            · simp only [amendTrigger, pyGtOpt, hdfv] at htr
              injection htr with h2; exact h2.symm
            · simp only [amendTrigger, pyGtOpt, hdfv] at htr
              by_cases hq : (1/10 : ℚ) < dq
              · rw [if_pos (by simpa using hq)] at htr
                rcases hl : lv.dfv with _ | dl
                · simp only [pyGtOpt, hl] at htr
                  injection htr with h2; exact h2.symm
                · simp only [pyGtOpt, hl] at htr
                  exact Except.noConfusion htr
              · rw [if_neg (by simpa using hq)] at htr
                exact Except.noConfusion htr
        subst he
        simp only [amendGo, htr]
        intro h
        injection h with h2
        exact PyErr.noConfusion h2
      · rcases lastOpt with _ | lv
        · have hb : b = false := by
            simp only [amendTrigger] at htr
            injection htr with h2; exact h2.symm
          subst hb
          simp only [amendGo, htr]
          rcases hrec : amendGo r (some v) rest with e2 | out
          · intro h
            injection h with h2
            exact ih (some v) (by rw [hrec, h2])
          · intro h; exact Except.noConfusion h
        · cases b with
          | false =>
              simp only [amendGo, htr]
              rcases hrec : amendGo r (some v) rest with e2 | out
              · intro h
                injection h with h2
                exact ih (some v) (by rw [hrec, h2])
              · intro h; exact Except.noConfusion h
          | true =>
              simp only [amendGo, htr]
              by_cases hts : get_time_steps_between r lv.t v.t ≠ []
              · rw [if_pos hts]
                have hzero : sumOfAmendeds (amendChunk r lv v) - v.dfv.getD 0 = 0 := by
                  rw [amendChunk_sum r lv v hts]; ring
                rw [if_pos (by rw [hzero]; norm_num)]
                rcases hrec : amendGo r (some ((amendChunk r lv v).getLastD lv)) rest
                  with e2 | out
                · intro h
                  injection h with h2
                  exact ih (some ((amendChunk r lv v).getLastD lv)) (by rw [hrec, h2])
                · intro h; exact Except.noConfusion h
              · rw [if_neg hts]
                rcases hrec : amendGo r (some v) rest with e2 | out
                · intro h
                  injection h with h2
                  exact ih (some v) (by rw [hrec, h2])
                · intro h; exact Except.noConfusion h

/-- C3: for every synthetic-interpolation event (trigger fired, at least one
boundary), the synthesized deltas sum to the triggering sample's `dfv` to
within (in exact arithmetic, exactly, hence within) the 0.0001 tolerance; and
the conservation `assert` (modelled as the `Except.error .assertionError`
branch on a residual at or beyond the tolerance) is never reached — the
amendment pass cannot fail with an `AssertionError`. -/
theorem C3_synthetic_conservation (r : Resolution) (lv v : InterpretedValue) (d : ℚ)
    (hd : v.dfv = some d)
    (hts : get_time_steps_between r lv.t v.t ≠ []) :
    |sumOfAmendeds (amendChunk r lv v) - d| < 1/10000 ∧
    (∀ (values : List InterpretedValue) (lastOpt : Option InterpretedValue),
      amendGo r lastOpt values ≠ .error .assertionError) := by
  constructor
  · rw [amendChunk_sum r lv v hts, hd, Option.getD_some]
    norm_num
  · exact amendGo_no_assertionError r

/-- Previous sample for the synthesis witnesses (`dfv = 0.5`). -/
def wvPrev : InterpretedValue :=
  ⟨⟨1537736400000000, 10800⟩, 100, some (1/2), none, 0, false, "w", ⟨none⟩⟩

/-- Triggering sample 12 s later (`dfv = 0.6`). -/
def wvTrig : InterpretedValue :=
  ⟨⟨1537736412000000, 10800⟩, 1006/10, some (6/10), none, 0, false, "w", ⟨none⟩⟩

/-- Witness for C3: the spec's own worked example (five-second resolution,
samples 12 s apart, two boundaries). -/
theorem C3_synthetic_conservation_witness :
    wvTrig.dfv = some (6/10) ∧
    get_time_steps_between Resolution.fiveSeconds wvPrev.t wvTrig.t ≠ [] ∧
    (|sumOfAmendeds (amendChunk Resolution.fiveSeconds wvPrev wvTrig) - 6/10| < 1/10000 ∧
     ∀ (values : List InterpretedValue) (lastOpt : Option InterpretedValue),
       amendGo Resolution.fiveSeconds lastOpt values ≠ .error .assertionError) :=
  ⟨rfl, by decide,
   C3_synthetic_conservation Resolution.fiveSeconds wvPrev wvTrig (6/10) rfl (by decide)⟩

theorem synthLoop_length (fvStep : ℚ) (fn : String) (fd : FilenameData) :
    ∀ (ts : List DateTime) (lastT : DateTime) (lastFv : ℚ),
      (synthLoop fvStep fn fd lastT lastFv ts).length = ts.length := by
  intro ts
  induction ts with
  | nil => intro lastT lastFv; rfl
  | cons t ts ih =>
      intro lastT lastFv
      simp only [synthLoop, List.length_cons, ih]

theorem synthLoop_map_t (fvStep : ℚ) (fn : String) (fd : FilenameData) :
    ∀ (ts : List DateTime) (lastT : DateTime) (lastFv : ℚ),
      (synthLoop fvStep fn fd lastT lastFv ts).map (fun x => x.t) = ts := by
  intro ts
  induction ts with
  | nil => intro lastT lastFv; rfl
  | cons t ts ih =>
      intro lastT lastFv
      simp only [synthLoop, List.map_cons, ih]

theorem synthLoop_mem (fvStep : ℚ) (fn : String) (fd : FilenameData) :
    ∀ (ts : List DateTime) (lastT : DateTime) (lastFv : ℚ),
      ∀ x ∈ synthLoop fvStep fn fd lastT lastFv ts,
        x.synthetic = true ∧ x.dfv = some fvStep ∧ x.filename = fn ∧
        x.filename_data = fd := by
  intro ts
  induction ts with
  | nil => intro lastT lastFv x hx; simp [synthLoop] at hx
  | cons t ts ih =>
      intro lastT lastFv x hx
      rcases List.mem_cons.mp hx with h | h
      · subst h
        refine ⟨rfl, ?_, rfl, rfl⟩
        have : lastFv + fvStep - lastFv = fvStep := by ring
        simp [this]
      · exact ih t (lastFv + fvStep) x h

/-- Synthetic values are strictly increasing when the per-step delta is
positive (with the head one step above the starting value). -/
theorem synthLoop_chain (fvStep : ℚ) (fn : String) (fd : FilenameData)
    (hpos : 0 < fvStep) :
    ∀ (ts : List DateTime) (lastT : DateTime) (lastFv : ℚ),
      (synthLoop fvStep fn fd lastT lastFv ts).Chain' (fun a b => a.fv < b.fv) ∧
      (∀ y ∈ (synthLoop fvStep fn fd lastT lastFv ts).head?, y.fv = lastFv + fvStep) := by
  intro ts
  induction ts with
  | nil => intro lastT lastFv; constructor <;> simp [synthLoop]
  | cons t ts ih =>
      intro lastT lastFv
      have hih := ih t (lastFv + fvStep)
      constructor
      · simp only [synthLoop]
        refine List.chain'_cons'.mpr ⟨?_, hih.1⟩
        intro y hy
        have := hih.2 y hy
        rw [this]
        dsimp only
        linarith
      · intro y hy
        simp only [synthLoop, List.head?_cons, Option.mem_def, Option.some.injEq] at hy
        subst hy
        rfl

/-- When the trigger fires with at least one boundary, the synthetic chunk is
emitted in place of the triggering sample (which is consumed, not re-emitted),
and the loop continues with the last synthetic sample as `last_value`. -/
theorem amendGo_trigger (r : Resolution) (lv v : InterpretedValue)
    (rest : List InterpretedValue) (d d0 : ℚ)
    (hd : v.dfv = some d) (h01 : 1/10 < d) (hl : lv.dfv = some d0) (h0 : 0 < d0)
    (hts : get_time_steps_between r lv.t v.t ≠ []) :
    amendGo r (some lv) (v :: rest) =
      Except.map (fun out => amendChunk r lv v ++ out)
        (amendGo r (some ((amendChunk r lv v).getLastD lv)) rest) := by
  have htr : amendTrigger (some lv) v = .ok true := by
    simp only [amendTrigger, pyGtOpt, hd, hl]
    rw [if_pos (by simpa using h01)]
    simp [h0]
  simp only [amendGo, htr]
  rw [if_pos hts]
  have hzero : sumOfAmendeds (amendChunk r lv v) - v.dfv.getD 0 = 0 := by
    rw [amendChunk_sum r lv v hts]; ring
  rw [if_pos (by rw [hzero]; norm_num)]
  rcases hrec : amendGo r (some ((amendChunk r lv v).getLastD lv)) rest with e | out
  · simp [Except.map]
  · simp [Except.map]

/-- C6: for every synthesis event with at least one bucket-step boundary
strictly between the previous and triggering samples: exactly
`min(N, 10)` synthetic samples are emitted, placed on the last `min(N, 10)`
boundaries, each marked `synthetic = true` and carrying delta
`dfv / min(N, 10)`, with strictly increasing values; every generated boundary
lies strictly between the two samples; and the triggering real sample itself
is not emitted — the output continues after the chunk with the last synthetic
sample as the new `last_value`. -/
theorem C6_synthesis_structure (r : Resolution) (lv v : InterpretedValue)
    (rest : List InterpretedValue) (d d0 : ℚ)
    (hd : v.dfv = some d) (h01 : 1/10 < d) (hl : lv.dfv = some d0) (h0 : 0 < d0)
    (hts : get_time_steps_between r lv.t v.t ≠ []) :
    (amendChunk r lv v).length = min (get_time_steps_between r lv.t v.t).length 10 ∧
    (amendChunk r lv v).map (fun x => x.t) = lastTen (get_time_steps_between r lv.t v.t) ∧
    (∀ x ∈ amendChunk r lv v, x.synthetic = true ∧
      x.dfv = some (d / ((min (get_time_steps_between r lv.t v.t).length 10 : ℕ) : ℚ))) ∧
    (amendChunk r lv v).Chain' (fun a b => a.fv < b.fv) ∧
    (∀ x ∈ get_time_steps_between r lv.t v.t,
      lv.t.usecs < x.usecs ∧ x.usecs < v.t.usecs) ∧
    amendGo r (some lv) (v :: rest) =
      Except.map (fun out => amendChunk r lv v ++ out)
        (amendGo r (some ((amendChunk r lv v).getLastD lv)) rest) := by
  have hlen : (lastTen (get_time_steps_between r lv.t v.t)).length
      = min (get_time_steps_between r lv.t v.t).length 10 := lastTen_length _
  have hstep : v.dfv.getD 0 / ((lastTen (get_time_steps_between r lv.t v.t)).length : ℚ)
      = d / ((min (get_time_steps_between r lv.t v.t).length 10 : ℕ) : ℚ) := by
    rw [hd, Option.getD_some, hlen]
  have hpos : 0 < d / ((min (get_time_steps_between r lv.t v.t).length 10 : ℕ) : ℚ) := by
    apply div_pos (lt_trans (by norm_num) h01)
    have : 0 < (get_time_steps_between r lv.t v.t).length := List.length_pos.mpr hts
    have : 0 < min (get_time_steps_between r lv.t v.t).length 10 := by omega
    exact_mod_cast this
  refine ⟨?_, ?_, ?_, ?_, ?_, ?_⟩
  · simp only [amendChunk]
    rw [synthLoop_length, hlen]
  · simp only [amendChunk]
    rw [synthLoop_map_t]
  · intro x hx
    simp only [amendChunk] at hx
    rw [hstep] at hx
    have h := synthLoop_mem _ _ _ _ _ _ x hx
    exact ⟨h.1, h.2.1⟩
  · simp only [amendChunk]
    rw [hstep]
    exact (synthLoop_chain _ _ _ hpos _ _ _).1
  · intro x hx
    exact get_time_steps_between_mem r lv.t v.t x hx
  · exact amendGo_trigger r lv v rest d d0 hd h01 hl h0 hts

/-- Witness for C6 on the spec's five-second example. -/
theorem C6_synthesis_structure_witness :
    wvTrig.dfv = some (6/10) ∧ ((1:ℚ)/10 < 6/10) ∧ wvPrev.dfv = some (1/2) ∧
    ((0:ℚ) < 1/2) ∧
    get_time_steps_between Resolution.fiveSeconds wvPrev.t wvTrig.t ≠ [] ∧
    ((amendChunk Resolution.fiveSeconds wvPrev wvTrig).length
        = min (get_time_steps_between Resolution.fiveSeconds wvPrev.t wvTrig.t).length 10 ∧
      (amendChunk Resolution.fiveSeconds wvPrev wvTrig).map (fun x => x.t)
        = lastTen (get_time_steps_between Resolution.fiveSeconds wvPrev.t wvTrig.t) ∧
      (∀ x ∈ amendChunk Resolution.fiveSeconds wvPrev wvTrig, x.synthetic = true ∧
        x.dfv = some ((6/10) /
          ((min (get_time_steps_between Resolution.fiveSeconds wvPrev.t wvTrig.t).length 10
            : ℕ) : ℚ))) ∧
      (amendChunk Resolution.fiveSeconds wvPrev wvTrig).Chain' (fun a b => a.fv < b.fv) ∧
      (∀ x ∈ get_time_steps_between Resolution.fiveSeconds wvPrev.t wvTrig.t,
        wvPrev.t.usecs < x.usecs ∧ x.usecs < wvTrig.t.usecs) ∧
      amendGo Resolution.fiveSeconds (some wvPrev) (wvTrig :: []) =
        Except.map (fun out => amendChunk Resolution.fiveSeconds wvPrev wvTrig ++ out)
          (amendGo Resolution.fiveSeconds
            (some ((amendChunk Resolution.fiveSeconds wvPrev wvTrig).getLastD wvPrev)) [])) :=
  ⟨rfl, by norm_num, rfl, by norm_num, by decide,
   C6_synthesis_structure Resolution.fiveSeconds wvPrev wvTrig [] (6/10) (1/2)
     rfl (by norm_num) rfl (by norm_num) (by decide)⟩

/-! ## Claim C7: the rendered flow-rate estimate -/

/-- A bucket with `sum = 1`, span 1800 s (≤ 1 h) and `sum_t = 900` s: the
accumulated `dt` differs from the span. -/
def cexFlowBucket : CumulativeGroupedData :=
  ⟨⟨(1970, 1, 1, 0, 0, 0), ⟨0, 0⟩, ⟨1800000000, 0⟩, 0, 1, 1, 900000000, 0, 2, none⟩,
   1, 1, 1⟩

/-- A bucket with `sum = 0` and the same 1800 s span. -/
def cexZeroBucket : CumulativeGroupedData :=
  ⟨⟨(1970, 1, 1, 0, 0, 0), ⟨0, 0⟩, ⟨1800000000, 0⟩, 5, 5, 0, 900000000, 0, 2, none⟩,
   0, 0, 1⟩

/-- C7 counterexample: (a) for a bucket with span ≤ 1 h the displayed
litres/minute figure is `60·sum` over the *accumulated `dt` seconds*
(`sum_t`), not over the bucket's span seconds as claimed — at `sum = 1`,
span 1800 s, `sum_t` 900 s the code shows 1/15 l/min, the claim demands 1/30;
(b) for a bucket with `sum = 0` no flow-rate estimate is displayed at all
(the `drops` guard), while the claim asserts the formula is shown. -/
theorem C7_counterexample :
    flowRateOf cexFlowBucket ≠
      .lPerMin (60 * cexFlowBucket.sum /
        (((cexFlowBucket.max_t.usecs - cexFlowBucket.min_t.usecs : Int) : ℚ) / 1000000)) ∧
    flowRateOf cexZeroBucket = .blank ∧
    FlowRateDisplay.blank ≠
      .lPerMin (60 * cexZeroBucket.sum /
        (((cexZeroBucket.max_t.usecs - cexZeroBucket.min_t.usecs : Int) : ℚ) / 1000000)) := by
  refine ⟨?_, ?_, by simp⟩
  · norm_num [flowRateOf, cexFlowBucket]
  · norm_num [flowRateOf, cexZeroBucket]

/-- C7 (amended): for every rendered bucket record with nonzero `sum`: if the
bucket's time span exceeds 1 hour the displayed flow-rate estimate is
`(max_fv − min_fv) / span_seconds × seconds_per_year` shown in
kilolitres/year; otherwise it is `60 × sum / sum_t_seconds` (litres/minute
over the bucket's *accumulated sample intervals*, not its span).  A bucket
with `sum = 0` displays no flow-rate estimate. -/
theorem C7_flow_rate (e : CumulativeGroupedData) :
    (e.sum = 0 → flowRateOf e = .blank) ∧
    (e.sum ≠ 0 → 3600000000 < e.max_t.usecs - e.min_t.usecs →
      flowRateOf e = .klPerYear ((e.max_fv - e.min_fv)
        / (((e.max_t.usecs - e.min_t.usecs : Int) : ℚ) / 1000000)
        * SECONDS_PER_YEAR / 1000)) ∧
    (e.sum ≠ 0 → e.max_t.usecs - e.min_t.usecs ≤ 3600000000 →
      flowRateOf e = .lPerMin (60 * e.sum / ((e.sum_t : ℚ) / 1000000))) := by
  refine ⟨?_, ?_, ?_⟩
  · intro h
    simp only [flowRateOf, h]
    norm_num
  · intro h hspan
    simp only [flowRateOf]
    rw [if_neg (by intro hc; exact h (by linarith)), if_pos hspan]
  · intro h hspan
    simp only [flowRateOf]
    rw [if_neg (by intro hc; exact h (by linarith)), if_neg (by omega)]

/-- Witness for C7 (amended) at the concrete short-span bucket. -/
theorem C7_flow_rate_witness :
    (cexFlowBucket.sum ≠ 0) ∧
    (cexFlowBucket.max_t.usecs - cexFlowBucket.min_t.usecs ≤ 3600000000) ∧
    flowRateOf cexFlowBucket =
      .lPerMin (60 * cexFlowBucket.sum / ((cexFlowBucket.sum_t : ℚ) / 1000000)) :=
  ⟨by norm_num [cexFlowBucket], by decide,
   (C7_flow_rate cexFlowBucket).2.2 (by norm_num [cexFlowBucket]) (by decide)⟩

/-! ## Claim C10: `make_bar` -/

/-- Python's banker's rounding of a value in `[0, 7)` lands in `0..7`. -/
theorem pyRound_bounds (x : ℚ) (h0 : 0 ≤ x) (h1 : x < 7) :
    0 ≤ pyRound x ∧ pyRound x ≤ 7 := by
  simp only [pyRound]
  have hf0 : (0 : Int) ≤ ⌊x⌋ := Int.floor_nonneg.mpr h0
  have hf1 : ⌊x⌋ < 7 := by
    have : (⌊x⌋ : ℚ) ≤ x := Int.floor_le x
    exact_mod_cast lt_of_le_of_lt this h1
  split_ifs <;> omega

/-- C10: for every non-negative value, `make_bar` emits only characters from
the block-gradient table (the fractional index always lies in `0..7`, so the
`'ERR'` fallback is unreachable); for every negative value the result is `'-'`
prepended to `make_bar` of the negation. -/
theorem C10_make_bar (v : ℚ) :
    (0 ≤ v → ∀ c ∈ make_bar v, c ∈ BAR_SYMBOLS) ∧
    (v < 0 → make_bar v = '-' :: make_bar (-v)) := by
  constructor
  · intro hv c hc
    rw [make_bar, if_neg (by linarith)] at hc
    simp only [make_bar_nonneg] at hc
    rcases List.mem_append.mp hc with h | h
    · rw [List.eq_of_mem_replicate h]
      decide
    · simp only [make_bar_frac] at h
      by_cases hz : v - (⌊v⌋ : ℚ) = 0
      · rw [if_pos hz] at h
        simp at h
      · rw [if_neg hz] at h
        have hfr0 : (0 : ℚ) ≤ v - (⌊v⌋ : ℚ) := by
          have := Int.floor_le v
          linarith
        have hfr1 : v - (⌊v⌋ : ℚ) < 1 := by
          have := Int.lt_floor_add_one v
          linarith
        have hb := pyRound_bounds ((v - (⌊v⌋ : ℚ)) * 7) (by positivity) (by linarith)
        rw [if_pos hb] at h
        simp only [List.mem_singleton] at h
        subst h
        have h7 : (pyRound ((v - (⌊v⌋ : ℚ)) * 7)).toNat ≤ 7 := by omega
        interval_cases hcase : (pyRound ((v - (⌊v⌋ : ℚ)) * 7)).toNat <;> decide
  · intro hv
    rw [make_bar, if_pos hv, make_bar, if_neg (by linarith)]

/-- Witness for C10 at `v = 5/2` (and the negative branch at `-5/2`). -/
theorem C10_make_bar_witness :
    ((0 : ℚ) ≤ 5/2 ∧ ∀ c ∈ make_bar (5/2), c ∈ BAR_SYMBOLS) ∧
    ((-5/2 : ℚ) < 0 ∧ make_bar (-5/2 : ℚ) = '-' :: make_bar (-(-5/2 : ℚ))) :=
  ⟨⟨by norm_num, (C10_make_bar (5/2)).1 (by norm_num)⟩,
   ⟨by norm_num, (C10_make_bar (-5/2)).2 (by norm_num)⟩⟩
